import Mathlib

/-!
Verification of the TaskFlow task-management backend: a shallow embedding of
the cache-backed rate limiter (`RateLimitGuard`), the auth lockout logic
(`AuthService`), the task mutation pipeline (`TasksService`), and the overdue
sweep (`OverdueTasksService`), with theorems settling the spec claims.
-/

namespace TaskFlow

/-- Task status enum (`task-status.enum.ts`). -/
inductive TaskStatus where
  | pending
  | inProgress
  | completed
  | cancelled
  deriving DecidableEq, Repr

/-- Task priority enum (`task-priority.enum.ts`). -/
inductive TaskPriority where
  | low
  | medium
  | high
  | urgent
  deriving DecidableEq, Repr

/-! ## Rate limiter (`RateLimitGuard` atop `CacheService`)

The Redis-backed cache slice used by the guard: integer counters with TTLs.
Infrastructure failure is modelled by flags: when a flag is set the
corresponding Redis command errors, and the embedding reproduces what each
`CacheService` wrapper does with that error (`get` catches and returns null,
`increment` rethrows, `expire` catches and returns false). -/

/-- Association-list lookup for string-keyed Nat stores (first match). -/
def lookupN (k : String) : List (String × Nat) → Option Nat
  | [] => none
  | (k', v) :: r => if k' = k then some v else lookupN k r

/-- Association-list overwrite for string-keyed Nat stores. -/
def setN (k : String) (v : Nat) : List (String × Nat) → List (String × Nat)
  | [] => [(k, v)]
  | (k', v') :: r => if k' = k then (k, v) :: r else (k', v') :: setN k v r

/-- State of the cache slice used by the rate limiter: the counter keyspace,
the TTLs set on those keys, and infrastructure-failure flags for the three
commands the guard issues. -/
structure RLStore where
  counters : List (String × Nat)
  ttls : List (String × Nat)
  getFails : Bool
  incrFails : Bool
  expireFails : Bool
  deriving DecidableEq, Repr

/-- A store with no keys and healthy infrastructure. -/
def freshStore : RLStore := ⟨[], [], false, false, false⟩

/-- `CacheService.get`: returns the stored value, or null on a miss, and also
null on a store error (the error is caught inside `get`). -/
def cacheGetNum (st : RLStore) (key : String) : Option Nat :=
  if st.getFails then none else lookupN key st.counters

/-- `CacheService.increment`: atomic INCRBY, auto-creating the key at 0;
store errors are rethrown to the caller. -/
def cacheIncrement (st : RLStore) (key : String) : Except Unit (Nat × RLStore) :=
  if st.incrFails then .error () else
    let newVal := (lookupN key st.counters).getD 0 + 1
    .ok (newVal, { st with counters := setN key newVal st.counters })

/-- `CacheService.expire`: sets a TTL on an existing key, returning false when
the key is absent; store errors are caught and yield false. -/
def cacheExpire (st : RLStore) (key : String) (ttl : Nat) : Bool × RLStore :=
  if st.expireFails then (false, st)
  else match lookupN key st.counters with
    | none => (false, st)
    | some _ => (true, { st with ttls := setN key ttl st.ttls })

/-- `RateLimitGuard.incrementCounter`: increment the window counter and, when
the result is exactly 1 (first increment in this window), set the TTL to
`ceil(windowMs / 1000)` seconds; increment errors are rethrown. -/
def incrementCounter (st : RLStore) (key : String) (windowMs : Nat) :
    Except Unit (Nat × RLStore) :=
  match cacheIncrement st key with
  | .error e => .error e
  | .ok (count, st1) =>
    if count = 1 then
      let (_, st2) := cacheExpire st1 key ((windowMs + 999) / 1000)
      .ok (count, st2)
    else .ok (count, st1)

/-- Window start used by the guard: `floor(now / windowMs) * windowMs`. -/
def windowStartOf (now windowMs : Nat) : Nat := now / windowMs * windowMs

/-- Composite window key `rate_limit:<identity>:<windowStart>`. -/
def rateLimitCacheKey (idKey : String) (ws : Nat) : String :=
  "rate_limit:" ++ idKey ++ ":" ++ toString ws

/-- Outcome of a rate-limit check: either the request is allowed, or it is
rejected by a `RateLimitException` carrying `limit`, `windowMs` and
`retryAfter` seconds. -/
inductive RLDecision where
  | allowed
  | rejected (limit windowMs retryAfter : Nat)
  deriving DecidableEq, Repr

/-- `RateLimitGuard.canActivate` (the path with rate-limit options present and
no skip): read the current window count (miss or read error gives 0); if it is
at least the limit, throw `RateLimitException` with
`retryAfter = ceil((windowStart + windowMs - now) / 1000)`; otherwise
increment, and on an increment error fail open (allow the request). The
`RateLimitException` is rethrown past the catch-all. -/
def canActivate (st : RLStore) (now limit windowMs : Nat) (idKey : String) :
    RLDecision × RLStore :=
  let ws := windowStartOf now windowMs
  let ck := rateLimitCacheKey idKey ws
  let currentCount := (cacheGetNum st ck).getD 0
  if currentCount ≥ limit then
    let retryAfter := (ws + windowMs - now + 999) / 1000
    (.rejected limit windowMs retryAfter, st)
  else
    match incrementCounter st ck windowMs with
    | .ok (_, st') => (.allowed, st')
    | .error _ => (.allowed, st)

/-- Iterate `canActivate` n times at a fixed instant, collecting decisions. -/
def runChecks (st : RLStore) (now limit windowMs : Nat) (idKey : String) :
    Nat → List RLDecision × RLStore
  | 0 => ([], st)
  | n + 1 =>
    let (d, st') := canActivate st now limit windowMs idKey
    let (ds, st'') := runChecks st' now limit windowMs idKey n
    (d :: ds, st'')

theorem lookupN_setN_self (k : String) (v : Nat) (l : List (String × Nat)) :
    lookupN k (setN k v l) = some v := by
  induction l with
  | nil => simp [setN, lookupN]
  | cons hd tl ih =>
    obtain ⟨k', v'⟩ := hd
    by_cases h : k' = k
    · simp [setN, h, lookupN]
    · simp [setN, h, lookupN, ih]

/-- C2: a rate-limit check with healthy infrastructure rejects exactly when the
stored count for the current window has reached the limit, carrying
`retryAfterSeconds = ceil((windowStart + windowMs - now) / 1000)`; otherwise it
atomically increments the window counter and sets a TTL of
`ceil(windowMs / 1000)` seconds exactly when the increment result is 1.
Moreover with `limit = 5` the sixth check in the same window is rejected. -/
theorem C2_fixed_window_rate_limit :
    (∀ (st : RLStore) (now limit windowMs : Nat) (idKey : String),
      st.getFails = false → st.incrFails = false → st.expireFails = false →
      (((lookupN (rateLimitCacheKey idKey (windowStartOf now windowMs)) st.counters).getD 0 ≥ limit →
        canActivate st now limit windowMs idKey
          = (.rejected limit windowMs
              ((windowStartOf now windowMs + windowMs - now + 999) / 1000), st))
      ∧ ((lookupN (rateLimitCacheKey idKey (windowStartOf now windowMs)) st.counters).getD 0 < limit →
        ∃ st' : RLStore,
          canActivate st now limit windowMs idKey = (.allowed, st')
          ∧ lookupN (rateLimitCacheKey idKey (windowStartOf now windowMs)) st'.counters
              = some ((lookupN (rateLimitCacheKey idKey (windowStartOf now windowMs)) st.counters).getD 0 + 1)
          ∧ ((lookupN (rateLimitCacheKey idKey (windowStartOf now windowMs)) st.counters).getD 0 = 0 →
              lookupN (rateLimitCacheKey idKey (windowStartOf now windowMs)) st'.ttls
                = some ((windowMs + 999) / 1000))
          ∧ ((lookupN (rateLimitCacheKey idKey (windowStartOf now windowMs)) st.counters).getD 0 ≠ 0 →
              st'.ttls = st.ttls))))
    ∧ (runChecks freshStore 300 5 1000 "user:1" 6).1
        = [.allowed, .allowed, .allowed, .allowed, .allowed, .rejected 5 1000 1] := by
  constructor
  · intro st now limit windowMs idKey hg hi he
    constructor
    · intro hge
      simp [canActivate, cacheGetNum, hg, hge]
    · intro hlt
      have hnot : ¬ ((cacheGetNum st (rateLimitCacheKey idKey (windowStartOf now windowMs))).getD 0 ≥ limit) := by
        simp only [cacheGetNum, hg, Bool.false_eq_true, if_false]
        omega
      by_cases hc : (lookupN (rateLimitCacheKey idKey (windowStartOf now windowMs)) st.counters).getD 0 = 0
      · refine ⟨{ st with
            counters := setN (rateLimitCacheKey idKey (windowStartOf now windowMs)) 1 st.counters,
            ttls := setN (rateLimitCacheKey idKey (windowStartOf now windowMs))
              ((windowMs + 999) / 1000) st.ttls }, ?_, ?_, ?_, ?_⟩
        · simp [canActivate, hnot, incrementCounter, cacheIncrement, hi, hc, cacheExpire, he,
            lookupN_setN_self]
        · simp [hc, lookupN_setN_self]
        · intro _
          simp [lookupN_setN_self]
        · intro hne
          exact absurd hc hne
      · refine ⟨{ st with
            counters := setN (rateLimitCacheKey idKey (windowStartOf now windowMs))
              ((lookupN (rateLimitCacheKey idKey (windowStartOf now windowMs)) st.counters).getD 0 + 1)
              st.counters }, ?_, ?_, ?_, ?_⟩
        · simp [canActivate, hnot, incrementCounter, cacheIncrement, hi, hc, cacheExpire, he,
            lookupN_setN_self]
        · simp [lookupN_setN_self]
        · intro h0
          exact absurd h0 hc
        · intro _
          rfl
  · decide

/-- C2 witness: at `limit = 0` on a fresh store the check is rejected with
`retryAfter = 1`, by the theorem's rejection branch. -/
theorem C2_fixed_window_rate_limit_witness :
    canActivate freshStore 0 0 1000 "k" = (.rejected 0 1000 1, freshStore) := by
  have h := (C2_fixed_window_rate_limit.1 freshStore 0 0 1000 "k" rfl rfl rfl).1 (by decide)
  simpa using h

/-- C3: the guard fails open — if the cache read errors (the `CacheService`
read yields a miss and the count is taken as 0, below any positive limit) or
the increment errors (caught by the guard's catch-all), the request is
allowed; a logical `RateLimitException` (count at limit) is still propagated.
-/
theorem C3_fail_open_on_infra_error :
    ∀ (st : RLStore) (now limit windowMs : Nat) (idKey : String),
      (st.getFails = true → 0 < limit →
        (canActivate st now limit windowMs idKey).1 = .allowed)
      ∧ (st.getFails = false → st.incrFails = true →
          (lookupN (rateLimitCacheKey idKey (windowStartOf now windowMs)) st.counters).getD 0 < limit →
          canActivate st now limit windowMs idKey = (.allowed, st))
      ∧ (st.getFails = false →
          limit ≤ (lookupN (rateLimitCacheKey idKey (windowStartOf now windowMs)) st.counters).getD 0 →
          (canActivate st now limit windowMs idKey).1
            = .rejected limit windowMs ((windowStartOf now windowMs + windowMs - now + 999) / 1000)) := by
  intro st now limit windowMs idKey
  refine ⟨?_, ?_, ?_⟩
  · intro hg hpos
    have hnot : ¬ ((cacheGetNum st (rateLimitCacheKey idKey (windowStartOf now windowMs))).getD 0 ≥ limit) := by
      simp [cacheGetNum, hg]
      omega
    rcases hres : incrementCounter st (rateLimitCacheKey idKey (windowStartOf now windowMs)) windowMs with e | p
    · simp [canActivate, hnot, hres]
    · simp [canActivate, hnot, hres]
  · intro hg hi hlt
    have hnot : ¬ ((cacheGetNum st (rateLimitCacheKey idKey (windowStartOf now windowMs))).getD 0 ≥ limit) := by
      simp only [cacheGetNum, hg, Bool.false_eq_true, if_false]
      omega
    simp [canActivate, hnot, incrementCounter, cacheIncrement, hi]
  · intro hg hge
    have hyes : (cacheGetNum st (rateLimitCacheKey idKey (windowStartOf now windowMs))).getD 0 ≥ limit := by
      simp only [cacheGetNum, hg, Bool.false_eq_true, if_false]
      omega
    simp [canActivate, hyes]

/-- C3 witness: with a failing read the request is allowed, with a failing
increment the request is allowed and the store untouched, and a full window is
still rejected, by the respective branches of the theorem. -/
theorem C3_fail_open_on_infra_error_witness :
    (canActivate ⟨[], [], true, false, false⟩ 0 5 1000 "k").1 = .allowed
    ∧ canActivate ⟨[], [], false, true, false⟩ 0 5 1000 "k" = (.allowed, ⟨[], [], false, true, false⟩)
    ∧ (canActivate ⟨[("rate_limit:k:0", 5)], [], false, false, false⟩ 0 5 1000 "k").1
        = .rejected 5 1000 1 := by
  refine ⟨(C3_fail_open_on_infra_error ⟨[], [], true, false, false⟩ 0 5 1000 "k").1 rfl (by decide),
    (C3_fail_open_on_infra_error ⟨[], [], false, true, false⟩ 0 5 1000 "k").2.1 rfl rfl (by decide),
    ?_⟩
  have h := (C3_fail_open_on_infra_error ⟨[("rate_limit:k:0", 5)], [], false, false, false⟩
    0 5 1000 "k").2.2 rfl (by decide)
  simpa using h

/-! ## Credential lockout (`AuthService`)

The per-email cache slice: the `auth:failed_attempts:<email>` counter (absent
when never set or expired), its TTL, and the `auth:lockout:<email>` flag with
its remaining TTL in seconds. -/

/-- Per-email brute-force state held in the `auth` cache namespace. -/
structure AuthCache where
  failedAttempts : Option Nat
  failedTtl : Option Nat
  lockoutPresent : Bool
  lockoutTtl : Nat
  deriving DecidableEq, Repr

/-- Outcome of `AuthService.login`: a lockout rejection
(`BusinessLogicException` with the remaining minutes), a credential rejection
(`AuthenticationException`), or success. -/
inductive LoginOutcome where
  | locked (minutes : Nat)
  | invalidCredentials
  | success
  deriving DecidableEq, Repr

/-- `AuthService.checkBruteForceProtection`: read the failed-attempt counter
(miss gives 0); only when it is at least 5 is the lockout flag consulted, and
only when that flag exists is the attempt rejected, with
`ceil(ttl / 60)` minutes remaining. -/
def checkBruteForceProtection (c : AuthCache) : Option Nat :=
  let failedAttempts := c.failedAttempts.getD 0
  if failedAttempts ≥ 5 then
    if c.lockoutPresent then some ((c.lockoutTtl + 59) / 60) else none
  else none

/-- `AuthService.recordFailedAttempt`: atomically increment the counter, seed
its 24h TTL on the first increment, and set the 15-minute lockout flag once
the count reaches 5. -/
def recordFailedAttempt (c : AuthCache) : AuthCache :=
  let attempts := c.failedAttempts.getD 0 + 1
  let newTtl := if attempts = 1 then some 86400 else c.failedTtl
  let c1 : AuthCache := { c with failedAttempts := some attempts, failedTtl := newTtl }
  if attempts ≥ 5 then { c1 with lockoutPresent := true, lockoutTtl := 900 } else c1

/-- `AuthService.clearFailedAttempts`: delete both the counter and the flag. -/
def clearFailedAttempts (c : AuthCache) : AuthCache :=
  { c with failedAttempts := none, failedTtl := none, lockoutPresent := false, lockoutTtl := 0 }

/-- `AuthService.login` restricted to its brute-force bookkeeping:
`credentialsValid` abstracts the user lookup plus the bcrypt comparison (an
unknown email and a wrong password take the same failure path). -/
def login (credentialsValid : Bool) (c : AuthCache) : LoginOutcome × AuthCache :=
  match checkBruteForceProtection c with
  | some minutes => (.locked minutes, c)
  | none =>
    if credentialsValid then (.success, clearFailedAttempts c)
    else (.invalidCredentials, recordFailedAttempt c)

/-- C4 counterexample: with the lockout flag present but the failed-attempt
counter absent (e.g. its 24h TTL expired), a failed attempt is not rejected as
locked and the counter is incremented to 1 — contradicting the claim that a
present lockout flag rejects the attempt regardless of the counter. -/
theorem C4_lockout_flag_alone_does_not_reject :
    (login false ⟨none, none, true, 600⟩).1 = .invalidCredentials
    ∧ ((login false ⟨none, none, true, 600⟩).2).failedAttempts = some 1 := by
  decide

theorem checkBruteForceProtection_eq_none (c : AuthCache)
    (h : ¬(5 ≤ c.failedAttempts.getD 0 ∧ c.lockoutPresent = true)) :
    checkBruteForceProtection c = none := by
  by_cases h5 : 5 ≤ c.failedAttempts.getD 0
  · have hflag : c.lockoutPresent ≠ true := fun hf => h ⟨h5, hf⟩
    simp [checkBruteForceProtection, h5, hflag]
  · simp [checkBruteForceProtection, h5]

theorem recordFailedAttempt_counter (c : AuthCache) :
    (recordFailedAttempt c).failedAttempts = some (c.failedAttempts.getD 0 + 1) := by
  by_cases h : c.failedAttempts.getD 0 + 1 ≥ 5 <;> simp [recordFailedAttempt, h]

/-- C4 amended: an authentication attempt is rejected as locked *exactly* in
the states where the failed-attempt counter is at least 5 and the lockout
flag is present; in that case the rejection carries `ceil(lockoutTtl / 60)`
minutes and leaves the cache state (in particular the counter) unchanged; in
every other state the lockout path is not taken — a failed credential check
then increments the counter, and a valid one succeeds. -/
theorem C4_lockout_requires_counter_at_threshold :
    ∀ (c : AuthCache) (credentialsValid : Bool),
      ((∃ minutes, (login credentialsValid c).1 = .locked minutes)
        ↔ 5 ≤ c.failedAttempts.getD 0 ∧ c.lockoutPresent = true)
      ∧ (5 ≤ c.failedAttempts.getD 0 → c.lockoutPresent = true →
          login credentialsValid c = (.locked ((c.lockoutTtl + 59) / 60), c))
      ∧ (¬(5 ≤ c.failedAttempts.getD 0 ∧ c.lockoutPresent = true) →
          credentialsValid = false →
          (login credentialsValid c).1 = .invalidCredentials
          ∧ (login credentialsValid c).2.failedAttempts
              = some (c.failedAttempts.getD 0 + 1))
      ∧ (¬(5 ≤ c.failedAttempts.getD 0 ∧ c.lockoutPresent = true) →
          credentialsValid = true →
          (login credentialsValid c).1 = .success) := by
  intro c credentialsValid
  by_cases hcond : 5 ≤ c.failedAttempts.getD 0 ∧ c.lockoutPresent = true
  · have hlock : login credentialsValid c = (.locked ((c.lockoutTtl + 59) / 60), c) := by
      simp [login, checkBruteForceProtection, hcond.1, hcond.2]
    exact ⟨⟨fun _ => hcond, fun _ => ⟨_, by rw [hlock]⟩⟩, fun _ _ => hlock,
      fun hcon => absurd hcond hcon, fun hcon => absurd hcond hcon⟩
  · have hnone : checkBruteForceProtection c = none :=
      checkBruteForceProtection_eq_none c hcond
    refine ⟨⟨?_, fun hc => absurd hc hcond⟩,
      fun h5 hf => absurd ⟨h5, hf⟩ hcond, ?_, ?_⟩
    · rintro ⟨minutes, hm⟩
      cases hcv : credentialsValid <;> simp [login, hnone, hcv] at hm
    · intro _ hcv
      exact ⟨by simp [login, hnone, hcv],
        by simp [login, hnone, hcv, recordFailedAttempt_counter]⟩
    · intro _ hcv
      simp [login, hnone, hcv]

/-- C4 witness: a locked state with five failed attempts and 600 seconds of
lockout left rejects with 10 minutes remaining and an unchanged state, and a
below-threshold state with two failed attempts lets a failing attempt through
and increments the counter to 3 — both by the amended theorem's branches. -/
theorem C4_lockout_requires_counter_at_threshold_witness :
    (login false ⟨some 5, some 86400, true, 600⟩
      = (.locked 10, ⟨some 5, some 86400, true, 600⟩))
    ∧ ((login false ⟨some 2, some 86400, false, 0⟩).1 = .invalidCredentials
      ∧ (login false ⟨some 2, some 86400, false, 0⟩).2.failedAttempts = some 3) := by
  refine ⟨?_, ?_⟩
  · have h := (C4_lockout_requires_counter_at_threshold
      ⟨some 5, some 86400, true, 600⟩ false).2.1 (by decide) rfl
    simpa using h
  · have h := (C4_lockout_requires_counter_at_threshold
      ⟨some 2, some 86400, false, 0⟩ false).2.2.1 (by decide) rfl
    simpa using h

/-! ## Mutation pipeline ordering (`TasksService` create / update / remove /
batchUpdate)

Each mutation runs inside `dataSource.transaction(async (manager) => ...)`:
the callback persists the entity, schedules the queue enqueue with
`setImmediate`, and awaits `invalidateTaskCache`, and only when the callback
returns does TypeORM issue COMMIT. The traces below record those operations in
the program order of the source. -/

/-- Observable operations of one mutation request, in program order. -/
inductive MutAction where
  | txnBegin
  | dbSave
  | dbRemove
  | dbBulkUpdate
  | scheduleEnqueue (event : String)
  | cacheInvalidate
  | txnCommit
  deriving DecidableEq, Repr

/-- `TasksService.create`: save, schedule `task-created`, invalidate, then the
transaction callback returns and COMMIT is issued. -/
def createTrace : List MutAction :=
  [.txnBegin, .dbSave, .scheduleEnqueue "task-created", .cacheInvalidate, .txnCommit]

/-- `TasksService.update` when the status changed: save, schedule
`task-status-updated`, invalidate, COMMIT. -/
def updateTrace : List MutAction :=
  [.txnBegin, .dbSave, .scheduleEnqueue "task-status-updated", .cacheInvalidate, .txnCommit]

/-- `TasksService.remove`: remove, schedule `task-deleted`, invalidate,
COMMIT. -/
def removeTrace : List MutAction :=
  [.txnBegin, .dbRemove, .scheduleEnqueue "task-deleted", .cacheInvalidate, .txnCommit]

/-- `TasksService.batchUpdate` with a nonempty found set: bulk update,
schedule `tasks-batch-updated`, invalidate the affected owners, COMMIT. -/
def batchUpdateTrace : List MutAction :=
  [.txnBegin, .dbBulkUpdate, .scheduleEnqueue "tasks-batch-updated", .cacheInvalidate, .txnCommit]

/-- Strict happens-before inside one trace: both actions occur and the first
occurrence of `a` precedes the first occurrence of `b`. -/
def precedes (tr : List MutAction) (a b : MutAction) : Bool :=
  tr.contains a && tr.contains b && decide (tr.indexOf a < tr.indexOf b)

/-- C1 evaluated on the code: in every mutation trace the cache invalidation
(and the enqueue scheduling) happens before the durable COMMIT, not after it —
the transaction callback awaits `invalidateTaskCache` before it returns. The
claim (commit happens-before invalidation and enqueue) is therefore false of
the code in all four mutation operations. -/
theorem C1_invalidation_precedes_commit :
    (precedes createTrace .cacheInvalidate .txnCommit = true
      ∧ precedes createTrace (.scheduleEnqueue "task-created") .txnCommit = true
      ∧ precedes createTrace .txnCommit .cacheInvalidate = false)
    ∧ (precedes updateTrace .cacheInvalidate .txnCommit = true
      ∧ precedes updateTrace (.scheduleEnqueue "task-status-updated") .txnCommit = true
      ∧ precedes updateTrace .txnCommit .cacheInvalidate = false)
    ∧ (precedes removeTrace .cacheInvalidate .txnCommit = true
      ∧ precedes removeTrace (.scheduleEnqueue "task-deleted") .txnCommit = true
      ∧ precedes removeTrace .txnCommit .cacheInvalidate = false)
    ∧ (precedes batchUpdateTrace .cacheInvalidate .txnCommit = true
      ∧ precedes batchUpdateTrace (.scheduleEnqueue "tasks-batch-updated") .txnCommit = true
      ∧ precedes batchUpdateTrace .txnCommit .cacheInvalidate = false) := by
  decide

/-! ## Task mutation pipeline data (`TasksService`) -/

/-- Durable `Task` row slice used by the mutation pipeline. -/
structure Task where
  id : String
  userId : String
  title : String
  status : TaskStatus
  priority : TaskPriority
  deriving DecidableEq, Repr

/-- Partial update payload (`UpdateTaskDto`); absent fields leave the
corresponding column unchanged. -/
structure UpdateTaskData where
  title : Option String := none
  status : Option TaskStatus := none
  priority : Option TaskPriority := none
  deriving DecidableEq, Repr

/-- TypeORM `merge` / partial `update`: set exactly the supplied columns. -/
def applyUpdate (u : UpdateTaskData) (t : Task) : Task :=
  { t with
    title := u.title.getD t.title
    status := u.status.getD t.status
    priority := u.priority.getD t.priority }

/-- Owner scoping: an optional `userId` filter added with `andWhere`; absent
means global access. -/
def ownerOk (userId : Option String) (t : Task) : Bool :=
  match userId with
  | none => true
  | some uid => t.userId = uid

/-- One per-ID entry of a bulk response (`BatchOperationResult`). -/
structure BatchItem where
  success : Bool
  id : String
  data : Option Task
  error : Option String
  deriving DecidableEq, Repr

/-- The `summary` block of a bulk response. -/
structure BatchSummary where
  total : Nat
  successful : Nat
  failed : Nat
  deriving DecidableEq, Repr

/-- `BulkOperationResponse<Task>`. -/
structure BulkOperationResponse where
  successful : List BatchItem
  failed : List BatchItem
  summary : BatchSummary
  deriving DecidableEq, Repr

/-- The `existingTasks` query of `TasksService.batchUpdate`: rows whose id is
in `taskIds`, owner-scoped. -/
def existingTasksOf (taskIds : List String) (userId : Option String) (db : List Task) :
    List Task :=
  db.filter (fun t => taskIds.contains t.id && ownerOk userId t)

/-- The `foundTaskIds` of `batchUpdate`: ids of the loaded rows. -/
def foundTaskIdsOf (taskIds : List String) (userId : Option String) (db : List Task) :
    List String :=
  (existingTasksOf taskIds userId db).map Task.id

/-- The `notFoundTaskIds` of `batchUpdate`: input occurrences whose id was not
loaded. -/
def notFoundTaskIdsOf (taskIds : List String) (userId : Option String) (db : List Task) :
    List String :=
  taskIds.filter (fun i => !((foundTaskIdsOf taskIds userId db).contains i))

/-- `TasksService.batchUpdate`: load the rows whose id is in `taskIds`
(owner-scoped), partition the input IDs into found vs not-found *before
mutating*, push one failure entry per not-found occurrence, bulk-update the
found rows (the re-read after the update is not owner-scoped), push one
success entry per re-read row, and fill the summary from the final list
lengths. Returns the response and the resulting durable state. -/
def batchUpdate (taskIds : List String) (upd : UpdateTaskData) (userId : Option String)
    (db : List Task) : BulkOperationResponse × List Task :=
  let foundTaskIds := foundTaskIdsOf taskIds userId db
  let failed := (notFoundTaskIdsOf taskIds userId db).map (fun i =>
    { success := false, id := i, data := none,
      error := some "Task not found or access denied" : BatchItem })
  if (existingTasksOf taskIds userId db).isEmpty then
    ({ successful := [], failed := failed,
       summary := { total := taskIds.length, successful := 0, failed := failed.length } }, db)
  else
    let newDb := db.map (fun t => if foundTaskIds.contains t.id then applyUpdate upd t else t)
    let updatedTasks := newDb.filter (fun t => foundTaskIds.contains t.id)
    let successful := updatedTasks.map (fun t =>
      { success := true, id := t.id, data := some t, error := none : BatchItem })
    ({ successful := successful, failed := failed,
       summary := { total := taskIds.length, successful := successful.length,
                    failed := failed.length } }, newDb)

/-- `TasksService.findOne` on the durable store (cache-miss path): id lookup
with optional owner scoping; an owner mismatch is a not-found, never a
forbidden. -/
def findOne (db : List Task) (id : String) (userId : Option String) : Option Task :=
  db.find? (fun t => t.id = id && ownerOk userId t)

/-- Events enqueued on the `task-processing` queue. -/
inductive QueueEvent where
  | taskCreated (taskId : String)
  | taskStatusUpdated (taskId : String) (oldStatus newStatus : TaskStatus)
  | taskDeleted (taskId : String)
  | tasksBatchUpdated (taskIds : List String)
  deriving DecidableEq, Repr

/-- Recogniser for `task-status-updated` events. -/
def isStatusUpdated : QueueEvent → Bool
  | .taskStatusUpdated .. => true
  | _ => false

/-- `TasksService.update`: load the existing task (owner-scoped, not-found
gives `ResourceNotFoundException`, here `none`), capture the prior status,
merge and save, and enqueue one `task-status-updated` event exactly when the
prior status differs from the saved status. Returns the saved task, the new
durable state, and the enqueued events. -/
def update (id : String) (upd : UpdateTaskData) (userId : Option String) (db : List Task) :
    Option (Task × List Task × List QueueEvent) :=
  match findOne db id userId with
  | none => none
  | some existingTask =>
    let originalStatus := existingTask.status
    let savedTask := applyUpdate upd existingTask
    let events := if originalStatus ≠ savedTask.status
      then [QueueEvent.taskStatusUpdated id originalStatus savedTask.status]
      else []
    let newDb := db.map (fun t => if t.id = savedTask.id then savedTask else t)
    some (savedTask, newDb, events)

theorem length_filter_split {α : Type} (l : List α) (p : α → Bool) :
    (l.filter p).length + (l.filter (fun x => !(p x))).length = l.length := by
  induction l with
  | nil => rfl
  | cons a t ih =>
    by_cases h : p a = true <;> simp [List.filter_cons, h, ← ih] <;> omega

theorem task_id_inj (db : List Task) (hdb : (db.map Task.id).Nodup)
    (r r' : Task) (hr : r ∈ db) (hr' : r' ∈ db) (heq : r.id = r'.id) : r = r' := by
  induction db with
  | nil => cases hr
  | cons a l ih =>
    rw [List.map_cons, List.nodup_cons] at hdb
    rcases List.mem_cons.mp hr with rfl | hr2 <;> rcases List.mem_cons.mp hr' with rfl | hr2'
    · rfl
    · exact absurd (heq ▸ List.mem_map_of_mem Task.id hr2') hdb.1
    · exact absurd (heq ▸ List.mem_map_of_mem Task.id hr2) hdb.1
    · exact ih hdb.2 hr2 hr2'

theorem filter_on_id_map {g : Task → Task} (hg : ∀ t, (g t).id = t.id)
    (p : String → Bool) (l : List Task) :
    (l.map g).filter (fun t => p t.id) = (l.filter (fun t => p t.id)).map g := by
  induction l with
  | nil => rfl
  | cons a t ih =>
    by_cases h : p a.id = true <;>
      simp [List.filter_cons, hg, h, ih]

theorem length_filter_mem (ids F : List String) (hids : ids.Nodup) (hF : F.Nodup)
    (hsub : ∀ x ∈ F, x ∈ ids) :
    (ids.filter (fun i => F.contains i)).length = F.length := by
  have hperm : List.Perm (ids.filter (fun i => F.contains i)) F := by
    rw [List.perm_ext_iff_of_nodup (hids.filter _) hF]
    intro a
    simp only [List.mem_filter, List.elem_iff]
    exact ⟨fun h => h.2, fun h => ⟨hsub a h, h⟩⟩
  exact hperm.length_eq

theorem filter_id_eq_singleton (db : List Task) (hdb : (db.map Task.id).Nodup)
    (t : Task) (ht : t ∈ db) : db.filter (fun s => s.id == t.id) = [t] := by
  induction db with
  | nil => cases ht
  | cons a l ih =>
    rw [List.map_cons, List.nodup_cons] at hdb
    rcases List.mem_cons.mp ht with rfl | ht2
    · have hnil : l.filter (fun s => s.id == t.id) = [] := by
        rw [List.filter_eq_nil_iff]
        intro s hs hbeq
        exact hdb.1 ((beq_iff_eq.mp hbeq) ▸ List.mem_map_of_mem Task.id hs)
      simp [List.filter_cons, hnil]
    · have hne : (a.id == t.id) = false := by
        rw [beq_eq_false_iff_ne]
        intro hcontra
        exact hdb.1 (hcontra ▸ List.mem_map_of_mem Task.id ht2)
      simp [List.filter_cons, hne, ih hdb.2 ht2]

theorem length_filter_or (l : List Task) (p q : Task → Bool)
    (hdisj : ∀ t, ¬(p t = true ∧ q t = true)) :
    (l.filter (fun t => p t || q t)).length
      = (l.filter p).length + (l.filter q).length := by
  induction l with
  | nil => rfl
  | cons a t ih =>
    by_cases hp : p a = true
    · have hq : q a = false := by
        rcases Bool.eq_false_or_eq_true (q a) with h | h
        · exact absurd ⟨hp, h⟩ (hdisj a)
        · exact h
      simp [List.filter_cons, hp, hq, ih]
      omega
    · rw [Bool.not_eq_true] at hp
      by_cases hq : q a = true <;> simp [List.filter_cons, hp, hq, ih] <;> omega

theorem foundTaskIds_nodup (taskIds : List String) (userId : Option String)
    (db : List Task) (hdb : (db.map Task.id).Nodup) :
    (foundTaskIdsOf taskIds userId db).Nodup :=
  hdb.sublist ((List.filter_sublist db).map Task.id)

theorem foundTaskIds_subset (taskIds : List String) (userId : Option String)
    (db : List Task) : ∀ x ∈ foundTaskIdsOf taskIds userId db, x ∈ taskIds := by
  intro x hx
  simp only [foundTaskIdsOf, existingTasksOf, List.mem_map, List.mem_filter] at hx
  obtain ⟨t, ⟨ht, hp⟩, rfl⟩ := hx
  exact List.elem_iff.mp (Bool.and_eq_true_iff.mp hp).1

theorem filter_contains_found (taskIds : List String) (userId : Option String)
    (db : List Task) (hdb : (db.map Task.id).Nodup) :
    db.filter (fun t => (foundTaskIdsOf taskIds userId db).contains t.id)
      = existingTasksOf taskIds userId db := by
  rw [existingTasksOf]
  apply List.filter_congr
  intro t ht
  apply Bool.coe_iff_coe.mp
  constructor
  · intro hmem
    have hF : t.id ∈ foundTaskIdsOf taskIds userId db := List.elem_iff.mp hmem
    simp only [foundTaskIdsOf, List.mem_map] at hF
    obtain ⟨t', ht', hid⟩ := hF
    simp only [existingTasksOf, List.mem_filter] at ht'
    have : t' = t := task_id_inj db hdb t' t ht'.1 ht hid
    exact this ▸ ht'.2
  · intro hp
    apply List.elem_iff.mpr
    simp only [foundTaskIdsOf, List.mem_map]
    refine ⟨t, ?_, rfl⟩
    simp only [existingTasksOf, List.mem_filter]
    exact ⟨ht, hp⟩

theorem updatedTasks_eq (taskIds : List String) (upd : UpdateTaskData)
    (userId : Option String) (db : List Task) (hdb : (db.map Task.id).Nodup) :
    (db.map (fun t =>
        if (foundTaskIdsOf taskIds userId db).contains t.id then applyUpdate upd t else t)).filter
        (fun t => (foundTaskIdsOf taskIds userId db).contains t.id)
      = (existingTasksOf taskIds userId db).map (applyUpdate upd) := by
  have hgid : ∀ t : Task,
      ((fun t => if (foundTaskIdsOf taskIds userId db).contains t.id
        then applyUpdate upd t else t) t).id = t.id := by
    intro t
    by_cases h : (foundTaskIdsOf taskIds userId db).contains t.id = true
    · show (if (foundTaskIdsOf taskIds userId db).contains t.id = true
        then applyUpdate upd t else t).id = t.id
      rw [if_pos h]
      rfl
    · show (if (foundTaskIdsOf taskIds userId db).contains t.id = true
        then applyUpdate upd t else t).id = t.id
      rw [if_neg h]
  rw [filter_on_id_map hgid (fun s => (foundTaskIdsOf taskIds userId db).contains s) db,
    filter_contains_found taskIds userId db hdb]
  apply List.map_eq_map_iff.mpr
  intro t ht
  have h : (foundTaskIdsOf taskIds userId db).contains t.id = true :=
    List.elem_iff.mpr (List.mem_map_of_mem Task.id ht)
  show (if (foundTaskIdsOf taskIds userId db).contains t.id = true
    then applyUpdate upd t else t) = applyUpdate upd t
  rw [if_pos h]

/-- C10: when the input id list has no duplicates (and the store's primary
keys are unique), `batchUpdate` reports `successful + failed = total`; but a
duplicated existing id contributes to `total` while producing neither a
success nor a failure entry, so the sum falls short of the total. -/
theorem C10_batch_summary_totals :
    (∀ (taskIds : List String) (upd : UpdateTaskData) (userId : Option String) (db : List Task),
      taskIds.Nodup → (db.map Task.id).Nodup →
      (batchUpdate taskIds upd userId db).1.summary.successful
        + (batchUpdate taskIds upd userId db).1.summary.failed
        = (batchUpdate taskIds upd userId db).1.summary.total)
    ∧ ((batchUpdate ["t1", "t1"] ⟨none, some .completed, none⟩ none
          [⟨"t1", "u1", "x", .pending, .medium⟩]).1.summary.total = 2
      ∧ (batchUpdate ["t1", "t1"] ⟨none, some .completed, none⟩ none
          [⟨"t1", "u1", "x", .pending, .medium⟩]).1.summary.successful
        + (batchUpdate ["t1", "t1"] ⟨none, some .completed, none⟩ none
          [⟨"t1", "u1", "x", .pending, .medium⟩]).1.summary.failed
        < (batchUpdate ["t1", "t1"] ⟨none, some .completed, none⟩ none
          [⟨"t1", "u1", "x", .pending, .medium⟩]).1.summary.total) := by
  constructor
  · intro taskIds upd userId db hids hdb
    have h4 : (taskIds.filter (fun i => (foundTaskIdsOf taskIds userId db).contains i)).length
        = (foundTaskIdsOf taskIds userId db).length :=
      length_filter_mem taskIds (foundTaskIdsOf taskIds userId db) hids
        (foundTaskIds_nodup taskIds userId db hdb) (foundTaskIds_subset taskIds userId db)
    have hsplit := length_filter_split taskIds
      (fun i => (foundTaskIdsOf taskIds userId db).contains i)
    by_cases hemp : (existingTasksOf taskIds userId db).isEmpty
    · have hnil : existingTasksOf taskIds userId db = [] := List.isEmpty_iff.mp hemp
      have hFnil : foundTaskIdsOf taskIds userId db = [] := by
        rw [foundTaskIdsOf, hnil]
        rfl
      simp only [batchUpdate, hemp, if_true]
      simp only [notFoundTaskIdsOf, hFnil, List.length_map]
      simp
    · simp only [batchUpdate, hemp, if_false, Bool.false_eq_true]
      simp only [notFoundTaskIdsOf, List.length_map,
        updatedTasks_eq taskIds upd userId db hdb]
      rw [show (existingTasksOf taskIds userId db).length
          = (foundTaskIdsOf taskIds userId db).length by
        rw [foundTaskIdsOf, List.length_map]]
      omega
  · constructor
    · decide
    · decide

/-- C5: with three pairwise-distinct input ids of which two belong to
owner-scoped rows and one is absent or owned by another user, `batchUpdate`
partitions before mutating and reports `total = 3`, `successful = 2`,
`failed = 1`, the failure entry names the missing id, and each success entry
carries the updated entity. -/
theorem C5_batch_partial_failure :
    ∀ (db : List Task) (upd : UpdateTaskData) (uid : String) (a b c : String) (ta tb : Task),
      (db.map Task.id).Nodup →
      ta ∈ db → ta.id = a → ta.userId = uid →
      tb ∈ db → tb.id = b → tb.userId = uid →
      (∀ t ∈ db, t.id = c → t.userId ≠ uid) →
      a ≠ b → a ≠ c → b ≠ c →
      ((batchUpdate [a, b, c] upd (some uid) db).1.summary = ⟨3, 2, 1⟩
        ∧ (batchUpdate [a, b, c] upd (some uid) db).1.failed.map BatchItem.id = [c]
        ∧ ∀ item ∈ (batchUpdate [a, b, c] upd (some uid) db).1.successful,
            ∃ t, t ∈ db ∧ (t.id = a ∨ t.id = b) ∧ item.data = some (applyUpdate upd t)) := by
  intro db upd uid a b c ta tb hdb hta hta_id hta_uid htb htb_id htb_uid hc hab hac hbc
  have hpe : ∀ t ∈ db, ((List.contains [a, b, c] t.id) && ownerOk (some uid) t)
      = (t.id == a || t.id == b) := by
    intro t ht
    apply Bool.coe_iff_coe.mp
    constructor
    · intro hp
      obtain ⟨hcont, hown⟩ := Bool.and_eq_true_iff.mp hp
      have hmem : t.id ∈ [a, b, c] := List.elem_iff.mp hcont
      have hu : t.userId = uid := by
        simpa [ownerOk] using hown
      simp only [List.mem_cons, List.not_mem_nil, or_false] at hmem
      rcases hmem with h | h | h
      · simp [h]
      · simp [h]
      · exact absurd hu (hc t ht h)
    · intro h
      rw [Bool.or_eq_true, beq_iff_eq, beq_iff_eq] at h
      apply Bool.and_eq_true_iff.mpr
      rcases h with h | h
      · have : t = ta := task_id_inj db hdb t ta ht hta (by rw [h, hta_id])
        refine ⟨List.elem_iff.mpr (by simp [h]), ?_⟩
        simp [ownerOk, this, hta_uid]
      · have : t = tb := task_id_inj db hdb t tb ht htb (by rw [h, htb_id])
        refine ⟨List.elem_iff.mpr (by simp [h]), ?_⟩
        simp [ownerOk, this, htb_uid]
  have hexist : existingTasksOf [a, b, c] (some uid) db
      = db.filter (fun t => t.id == a || t.id == b) := by
    rw [existingTasksOf]
    exact List.filter_congr hpe
  have hsing_a : db.filter (fun t => t.id == a) = [ta] := by
    have := filter_id_eq_singleton db hdb ta hta
    rw [hta_id] at this
    exact this
  have hsing_b : db.filter (fun t => t.id == b) = [tb] := by
    have := filter_id_eq_singleton db hdb tb htb
    rw [htb_id] at this
    exact this
  have hdisj : ∀ t : Task, ¬((t.id == a) = true ∧ (t.id == b) = true) := by
    intro t hcontra
    simp only [beq_iff_eq] at hcontra
    exact hab (hcontra.1.symm.trans hcontra.2)
  have hlen2 : (existingTasksOf [a, b, c] (some uid) db).length = 2 := by
    rw [hexist, length_filter_or db (fun t => t.id == a) (fun t => t.id == b) hdisj,
      hsing_a, hsing_b]
    rfl
  have hemp : (existingTasksOf [a, b, c] (some uid) db).isEmpty = false := by
    rcases Bool.eq_false_or_eq_true ((existingTasksOf [a, b, c] (some uid) db).isEmpty)
      with h | h
    · rw [List.isEmpty_iff.mp h] at hlen2
      cases hlen2
    · exact h
  have haF : (foundTaskIdsOf [a, b, c] (some uid) db).contains a = true := by
    apply List.elem_iff.mpr
    rw [foundTaskIdsOf]
    apply List.mem_map.mpr
    refine ⟨ta, ?_, hta_id⟩
    rw [hexist]
    exact List.mem_filter.mpr ⟨hta, by simp [hta_id]⟩
  have hbF : (foundTaskIdsOf [a, b, c] (some uid) db).contains b = true := by
    apply List.elem_iff.mpr
    rw [foundTaskIdsOf]
    apply List.mem_map.mpr
    refine ⟨tb, ?_, htb_id⟩
    rw [hexist]
    exact List.mem_filter.mpr ⟨htb, by simp [htb_id]⟩
  have hcF : (foundTaskIdsOf [a, b, c] (some uid) db).contains c = false := by
    rcases Bool.eq_false_or_eq_true ((foundTaskIdsOf [a, b, c] (some uid) db).contains c)
      with h | h
    · exfalso
      have hmem : c ∈ foundTaskIdsOf [a, b, c] (some uid) db := List.elem_iff.mp h
      rw [foundTaskIdsOf] at hmem
      obtain ⟨t', ht', hid⟩ := List.mem_map.mp hmem
      rw [hexist] at ht'
      have hp := (List.mem_filter.mp ht').2
      rw [hid] at hp
      rw [Bool.or_eq_true, beq_iff_eq, beq_iff_eq] at hp
      rcases hp with h' | h'
      · exact hac h'.symm
      · exact hbc h'.symm
    · exact h
  have hnotf : notFoundTaskIdsOf [a, b, c] (some uid) db = [c] := by
    have haM : a ∈ foundTaskIdsOf [a, b, c] (some uid) db := List.elem_iff.mp haF
    have hbM : b ∈ foundTaskIdsOf [a, b, c] (some uid) db := List.elem_iff.mp hbF
    have hcM : c ∉ foundTaskIdsOf [a, b, c] (some uid) db := by
      intro hm
      have h2 : (foundTaskIdsOf [a, b, c] (some uid) db).contains c = true :=
        List.elem_iff.mpr hm
      rw [h2] at hcF
      cases hcF
    rw [notFoundTaskIdsOf]
    simp [List.filter_cons, haM, hbM, hcM]
  refine ⟨?_, ?_, ?_⟩
  · simp only [batchUpdate, hemp, Bool.false_eq_true, if_false,
      updatedTasks_eq [a, b, c] upd (some uid) db hdb, hnotf]
    simp [hlen2]
  · simp only [batchUpdate, hemp, Bool.false_eq_true, if_false, hnotf]
    simp
  · intro item hitem
    simp only [batchUpdate, hemp, Bool.false_eq_true, if_false,
      updatedTasks_eq [a, b, c] upd (some uid) db hdb] at hitem
    simp only [List.mem_map] at hitem
    obtain ⟨t, ht', rfl⟩ := hitem
    obtain ⟨t0, ht0, rfl⟩ := ht'
    rw [hexist] at ht0
    have hmem := List.mem_filter.mp ht0
    have hor := hmem.2
    rw [Bool.or_eq_true, beq_iff_eq, beq_iff_eq] at hor
    exact ⟨t0, hmem.1, hor, rfl⟩

/-- C5 witness: a concrete three-row store in which ids `a1`, `b1` belong to
user `u1` and `c1` to another user; the conclusion follows by the theorem. -/
theorem C5_batch_partial_failure_witness :
    ((batchUpdate ["a1", "b1", "c1"] ⟨none, some .completed, none⟩ (some "u1")
        [⟨"a1", "u1", "t", .pending, .medium⟩, ⟨"b1", "u1", "t", .pending, .medium⟩,
          ⟨"c1", "u2", "t", .pending, .medium⟩]).1.summary = ⟨3, 2, 1⟩
      ∧ (batchUpdate ["a1", "b1", "c1"] ⟨none, some .completed, none⟩ (some "u1")
        [⟨"a1", "u1", "t", .pending, .medium⟩, ⟨"b1", "u1", "t", .pending, .medium⟩,
          ⟨"c1", "u2", "t", .pending, .medium⟩]).1.failed.map BatchItem.id = ["c1"]
      ∧ ∀ item ∈ (batchUpdate ["a1", "b1", "c1"] ⟨none, some .completed, none⟩ (some "u1")
        [⟨"a1", "u1", "t", .pending, .medium⟩, ⟨"b1", "u1", "t", .pending, .medium⟩,
          ⟨"c1", "u2", "t", .pending, .medium⟩]).1.successful,
          ∃ t, t ∈ [⟨"a1", "u1", "t", .pending, .medium⟩, ⟨"b1", "u1", "t", .pending, .medium⟩,
            (⟨"c1", "u2", "t", .pending, .medium⟩ : Task)]
            ∧ (t.id = "a1" ∨ t.id = "b1")
            ∧ item.data = some (applyUpdate ⟨none, some .completed, none⟩ t)) := by
  exact C5_batch_partial_failure
    [⟨"a1", "u1", "t", .pending, .medium⟩, ⟨"b1", "u1", "t", .pending, .medium⟩,
      ⟨"c1", "u2", "t", .pending, .medium⟩]
    ⟨none, some .completed, none⟩ "u1" "a1" "b1" "c1"
    ⟨"a1", "u1", "t", .pending, .medium⟩ ⟨"b1", "u1", "t", .pending, .medium⟩
    (by decide) (by decide) rfl rfl (by decide) rfl rfl (by decide)
    (by decide) (by decide) (by decide)

/-- C10 witness: a two-id distinct input over a one-row store satisfies the
summing property, by the theorem's first conjunct. -/
theorem C10_batch_summary_totals_witness :
    (batchUpdate ["x", "y"] ⟨none, none, none⟩ none
        [⟨"x", "u", "t", .pending, .low⟩]).1.summary.successful
      + (batchUpdate ["x", "y"] ⟨none, none, none⟩ none
        [⟨"x", "u", "t", .pending, .low⟩]).1.summary.failed
      = (batchUpdate ["x", "y"] ⟨none, none, none⟩ none
        [⟨"x", "u", "t", .pending, .low⟩]).1.summary.total := by
  exact C10_batch_summary_totals.1 ["x", "y"] ⟨none, none, none⟩ none
    [⟨"x", "u", "t", .pending, .low⟩] (by decide) (by decide)

/-- C8: a successful `update` enqueues a `task-status-updated` event exactly
when the status before the update differs from the status after it — never
more than one per call — and the saved status differs from the prior one
exactly when the payload carries a different status; a payload without a
status enqueues nothing. -/
theorem C8_status_event_gating :
    ∀ (db : List Task) (id : String) (upd : UpdateTaskData) (userId : Option String) (t0 : Task),
      findOne db id userId = some t0 →
      ∃ saved newDb events,
        update id upd userId db = some (saved, newDb, events)
        ∧ events.countP isStatusUpdated = (if saved.status ≠ t0.status then 1 else 0)
        ∧ events.length ≤ 1
        ∧ (saved.status ≠ t0.status ↔ ∃ s, upd.status = some s ∧ s ≠ t0.status)
        ∧ (upd.status = none → events = []) := by
  intro db id upd userId t0 hfind
  refine ⟨applyUpdate upd t0,
    db.map (fun t => if t.id = (applyUpdate upd t0).id then applyUpdate upd t0 else t),
    if t0.status ≠ (applyUpdate upd t0).status
      then [QueueEvent.taskStatusUpdated id t0.status (applyUpdate upd t0).status] else [],
    ?_, ?_, ?_, ?_, ?_⟩
  · simp [update, hfind]
  · by_cases h : t0.status = (applyUpdate upd t0).status
    · simp [h]
    · have h' : ¬((applyUpdate upd t0).status = t0.status) := fun he => h he.symm
      simp [h, h', isStatusUpdated, List.countP_cons, List.countP_nil]
  · by_cases h : t0.status = (applyUpdate upd t0).status <;> simp [h]
  · constructor
    · intro hne
      cases hstat : upd.status with
      | none =>
        exfalso
        apply hne
        simp [applyUpdate, hstat]
      | some s =>
        refine ⟨s, rfl, ?_⟩
        simpa [applyUpdate, hstat] using hne
    · rintro ⟨s, hs, hne⟩
      simpa [applyUpdate, hs] using hne
  · intro hnone
    simp [applyUpdate, hnone]

/-- C8 witness: updating a pending task with status `completed` yields exactly
one `task-status-updated` event, by the theorem at a one-row store. -/
theorem C8_status_event_gating_witness :
    ∃ saved newDb events,
      update "t1" ⟨none, some .completed, none⟩ none [⟨"t1", "u1", "x", .pending, .medium⟩]
        = some (saved, newDb, events)
      ∧ events.countP isStatusUpdated
          = (if saved.status ≠ (⟨"t1", "u1", "x", .pending, .medium⟩ : Task).status
              then 1 else 0)
      ∧ events.length ≤ 1
      ∧ (saved.status ≠ (⟨"t1", "u1", "x", .pending, .medium⟩ : Task).status
          ↔ ∃ s, (⟨none, some .completed, none⟩ : UpdateTaskData).status = some s
              ∧ s ≠ (⟨"t1", "u1", "x", .pending, .medium⟩ : Task).status)
      ∧ ((⟨none, some .completed, none⟩ : UpdateTaskData).status = none → events = []) :=
  C8_status_event_gating [⟨"t1", "u1", "x", .pending, .medium⟩] "t1"
    ⟨none, some .completed, none⟩ none ⟨"t1", "u1", "x", .pending, .medium⟩ (by decide)

/-! ## Overdue sweep (`OverdueTasksService.processOverdueTasks`)

The where-clause of the sweep is written
`status: Not(TaskStatus.COMPLETED) && Not(TaskStatus.CANCELLED)`. In
JavaScript `&&` on two `FindOperator` objects evaluates the truthiness of the
left operand — every object is truthy — and yields the right operand, so the
stored condition is `Not(TaskStatus.CANCELLED)` alone. -/

/-- TypeORM `Not(status)` find-operator value. -/
structure FindOpNot where
  excluded : TaskStatus
  deriving DecidableEq, Repr

/-- JavaScript truthiness of a find-operator object: every object is truthy. -/
def jsTruthy (_ : FindOpNot) : Bool := true

/-- JavaScript `&&` on two find-operator objects: the right operand when the
left is truthy, else the left. -/
def jsAnd (x y : FindOpNot) : FindOpNot := if jsTruthy x then y else x

/-- The status condition exactly as written in the source:
`Not(TaskStatus.COMPLETED) && Not(TaskStatus.CANCELLED)`. -/
def overdueStatusCond : FindOpNot := jsAnd ⟨.completed⟩ ⟨.cancelled⟩

/-- Evaluation of a `Not` find operator against the status column. -/
def evalFindOpNot (op : FindOpNot) (s : TaskStatus) : Bool := s ≠ op.excluded

/-- Row slice consumed by the sweep. -/
structure SweepTask where
  id : String
  userId : String
  status : TaskStatus
  dueDate : Int
  deriving DecidableEq, Repr

/-- The `find` of `processOverdueTasks`: rows with `dueDate < now` whose
status satisfies the stored condition, capped at 1000 rows (`take: 1000`). -/
def processOverdueTasksSelection (db : List SweepTask) (now : Int) : List SweepTask :=
  (db.filter (fun t =>
    decide (t.dueDate < now) && evalFindOpNot overdueStatusCond t.status)).take 1000

/-- C9: the sweep's selection is exactly the overdue rows whose status is not
CANCELLED — the `&&` of the two `Not` operators collapses to
`Not(CANCELLED)`, so overdue COMPLETED tasks are selected too; concretely an
overdue COMPLETED task is picked and an overdue CANCELLED one is not. -/
theorem C9_overdue_sweep_selects_not_cancelled :
    (∀ (db : List SweepTask) (now : Int),
      processOverdueTasksSelection db now
        = (db.filter (fun t =>
            decide (t.dueDate < now) && decide (t.status ≠ TaskStatus.cancelled))).take 1000)
    ∧ processOverdueTasksSelection
        [⟨"t1", "u1", .completed, 0⟩, ⟨"t2", "u2", .cancelled, 0⟩] 5
        = [⟨"t1", "u1", .completed, 0⟩] := by
  exact ⟨fun db now => rfl, by decide⟩

/-! ## Statistics windows (`TasksService.getCompletedTasksInPeriod`)

JS `Date` arithmetic is embedded through civil day numbers: `MakeDay`
normalises an out-of-range day-of-month linearly, so `setDate(getDate() - 7)`
is the civil day minus 7, and `setMonth(getMonth() - 1)` keeps the
day-of-month while moving to the previous month. Timestamps are epoch
milliseconds. -/

/-- Days from 1970-01-01 to the first of month `m` of year `y` (proleptic
Gregorian, `1 ≤ m ≤ 12`), the standard civil-from-days construction. -/
def civilDayOfFirst (y m : Nat) : Int :=
  let y' := if m ≤ 2 then y - 1 else y
  let era := y' / 400
  let yoe := y' % 400
  let mp := (m + 9) % 12
  let doy := (153 * mp + 2) / 5
  let doe := yoe * 365 + yoe / 4 - yoe / 100 + doy
  (era : Int) * 146097 + (doe : Int) - 719468

/-- ECMAScript `MakeDay(y, m, d)` for in-range months: the day count of
`(y, m, d)`; `d` may lie outside the month and rolls over linearly, exactly
as a JS `Date` normalises it. -/
def civilDay (y m : Nat) (d : Int) : Int := civilDayOfFirst y m + (d - 1)

/-- Milliseconds per day. -/
def msPerDay : Int := 86400000

/-- Epoch milliseconds of `(y, m, d)` plus a time of day in milliseconds. -/
def dateMs (y m : Nat) (d tod : Int) : Int := civilDay y m d * msPerDay + tod

/-- The `week` branch start: `startDate.setDate(now.getDate() - 7)` keeps
month and time-of-day and sets the day-of-month to `d - 7`. -/
def weekStartMs (y m : Nat) (d tod : Int) : Int := civilDay y m (d - 7) * msPerDay + tod

/-- The `month` branch start: `startDate.setMonth(now.getMonth() - 1)` keeps
the day-of-month and time-of-day and moves to the previous month (December of
the previous year for January). -/
def monthStartMs (y m : Nat) (d tod : Int) : Int :=
  (if m = 1 then civilDay (y - 1) 12 d else civilDay y (m - 1) d) * msPerDay + tod

/-- Row slice consumed by the statistics queries. -/
structure StatTask where
  userId : String
  status : TaskStatus
  updatedAt : Int
  deriving DecidableEq, Repr

/-- Owner scoping of the statistics queries. -/
def statOwnerOk (userId : Option String) (t : StatTask) : Bool :=
  match userId with
  | none => true
  | some uid => t.userId = uid

/-- The two periods accepted by `getCompletedTasksInPeriod`. -/
inductive Period where
  | week
  | month
  deriving DecidableEq, Repr

/-- `TasksService.getCompletedTasksInPeriod`: count the rows with status
COMPLETED and `updatedAt >= startDate` (owner-scoped), where `startDate` is
now shifted by the period branch. -/
def getCompletedTasksInPeriod (period : Period) (y m : Nat) (d tod : Int)
    (userId : Option String) (db : List StatTask) : Nat :=
  let startMs := match period with
    | .week => weekStartMs y m d tod
    | .month => monthStartMs y m d tod
  (db.filter (fun t => t.status = TaskStatus.completed
    && decide (startMs ≤ t.updatedAt) && statOwnerOk userId t)).length

/-- Modelled from the claim's words: the count of COMPLETED rows updated
within a rolling window of `days` days measured backwards from now. For
comparison with `getCompletedTasksInPeriod`. -/
def rollingWindowCount (days : Int) (y m : Nat) (d tod : Int)
    (userId : Option String) (db : List StatTask) : Nat :=
  (db.filter (fun t => t.status = TaskStatus.completed
    && decide (dateMs y m d tod - days * msPerDay ≤ t.updatedAt)
    && statOwnerOk userId t)).length

/-- C7 counterexample: at now = 2023-03-31, the month branch starts the
window at `setMonth` of February 31st, which normalises to March 3rd, so a
task completed on March 2nd is outside the code's window yet inside the
claimed rolling 30-day window; the two window starts differ. -/
theorem C7_month_window_not_thirty_days :
    getCompletedTasksInPeriod .month 2023 3 31 0 none
        [⟨"u", .completed, dateMs 2023 3 2 0⟩] = 0
    ∧ rollingWindowCount 30 2023 3 31 0 none
        [⟨"u", .completed, dateMs 2023 3 2 0⟩] = 1
    ∧ monthStartMs 2023 3 31 0 ≠ dateMs 2023 3 31 0 - 30 * msPerDay := by
  refine ⟨by decide, by decide, by decide⟩

/-- C7 amended: `completedThisWeek` is a genuine rolling 7-day window (the
week start equals now minus exactly 7 days, and the counts agree with the
rolling-window specification), while `completedThisMonth` counts COMPLETED
tasks updated since the same day-of-month one calendar month earlier (JS
`setMonth(-1)` semantics), not a fixed 30-day window. -/
theorem C7_week_rolling_month_calendar :
    (∀ (y m : Nat) (d tod : Int) (userId : Option String) (db : List StatTask),
      weekStartMs y m d tod = dateMs y m d tod - 7 * msPerDay
      ∧ getCompletedTasksInPeriod .week y m d tod userId db
          = rollingWindowCount 7 y m d tod userId db)
    ∧ (∀ (y m : Nat) (d tod : Int) (userId : Option String) (db : List StatTask),
        getCompletedTasksInPeriod .month y m d tod userId db
          = (db.filter (fun t => t.status = TaskStatus.completed
              && decide (monthStartMs y m d tod ≤ t.updatedAt)
              && statOwnerOk userId t)).length) := by
  constructor
  · intro y m d tod userId db
    have hstart : weekStartMs y m d tod = dateMs y m d tod - 7 * msPerDay := by
      simp only [weekStartMs, dateMs, civilDay, msPerDay]
      ring
    refine ⟨hstart, ?_⟩
    simp only [getCompletedTasksInPeriod, rollingWindowCount, hstart]
  · intro y m d tod userId db
    rfl

/-! ## List-view cache keys (`TasksService.generateCacheKey`)

The query shape passed to `generateCacheKey` is a JS object; it is embedded
as an insertion-ordered association list of JSON values. `JSON.stringify` is
embedded for the value shapes that occur (null, booleans, integers, plain
strings needing no escapes, nested objects), and `Buffer.toString('base64')`
over the ASCII bytes of that output. -/

/-- Atomic JSON values occurring in the query shape. -/
inductive JsonAtom where
  | null
  | b (x : Bool)
  | i (x : Int)
  | s (x : String)
  deriving DecidableEq, Repr

/-- A value of the query-shape object: an atom, or a flat nested object (the
`pagination` and `filters` sub-objects are flat). -/
inductive Json where
  | atom (a : JsonAtom)
  | obj (members : List (String × JsonAtom))
  deriving DecidableEq, Repr

/-- `JSON.stringify` of an atom. -/
def stringifyAtom : JsonAtom → String
  | .null => "null"
  | .b true => "true"
  | .b false => "false"
  | .i x => toString x
  | .s x => "\"" ++ x ++ "\""

/-- Comma-separated serialisation of nested-object members, in insertion
order. -/
def stringifyInnerMembers : List (String × JsonAtom) → String
  | [] => ""
  | [(k, v)] => "\"" ++ k ++ "\":" ++ stringifyAtom v
  | (k, v) :: m :: rest =>
    "\"" ++ k ++ "\":" ++ stringifyAtom v ++ "," ++ stringifyInnerMembers (m :: rest)

/-- `JSON.stringify` of a query-shape value. -/
def stringifyJson : Json → String
  | .atom a => stringifyAtom a
  | .obj ms => "\x7b" ++ stringifyInnerMembers ms ++ "\x7d"

/-- Comma-separated serialisation of the top-level members, in list order. -/
def stringifyTopMembers : List (String × Json) → String
  | [] => ""
  | [(k, v)] => "\"" ++ k ++ "\":" ++ stringifyJson v
  | (k, v) :: m :: rest =>
    "\"" ++ k ++ "\":" ++ stringifyJson v ++ "," ++ stringifyTopMembers (m :: rest)

/-- `JSON.stringify` of the whole params object. -/
def stringifyTop (ms : List (String × Json)) : String :=
  "\x7b" ++ stringifyTopMembers ms ++ "\x7d"

/-- Association-list lookup on JSON object members (first match), the JS
property access `params[key]`. -/
def lookupJ (k : String) : List (String × Json) → Option Json
  | [] => none
  | (k', v) :: r => if k' = k then some v else lookupJ k r

/-- Lexicographic comparison of code-point lists. -/
def natListLe : List Nat → List Nat → Bool
  | [], _ => true
  | _ :: _, [] => false
  | x :: xs, y :: ys =>
    if x < y then true
    else if y < x then false
    else natListLe xs ys

/-- JS string comparison: lexicographic on UTF-16 code units, which is the
code-point order for the ASCII keys occurring here. -/
def strLe (a b : String) : Bool := natListLe (a.data.map Char.toNat) (b.data.map Char.toNat)

/-- Insertion of a key into a sorted key list. -/
def insertSorted (x : String) : List String → List String
  | [] => [x]
  | y :: ys => if strLe x y then x :: y :: ys else y :: insertSorted x ys

/-- `Object.keys(params).sort()`: insertion sort by the JS comparison. -/
def sortKeys : List String → List String
  | [] => []
  | k :: ks => insertSorted k (sortKeys ks)

/-- The `reduce` of `generateCacheKey`: rebuild the object with its top-level
keys sorted; values — nested objects included — are carried over as-is. -/
def jsSortTopLevel (ms : List (String × Json)) : List (String × Json) :=
  (sortKeys (ms.map Prod.fst)).map (fun k => (k, (lookupJ k ms).getD (.atom .null)))

/-- The base64 alphabet character at index `n`. -/
def b64Char (n : Nat) : Char :=
  ("ABCDEFGHIJKLMNOPQRSTUVWXYZabcdefghijklmnopqrstuvwxyz0123456789+/".toList).getD n '='

/-- Base64 of a byte list with standard padding
(`Buffer.toString('base64')`). -/
def base64EncodeBytes : List Nat → String
  | [] => ""
  | [b0] => String.mk [b64Char (b0 / 4), b64Char (b0 % 4 * 16)] ++ "=="
  | [b0, b1] =>
    String.mk [b64Char (b0 / 4), b64Char (b0 % 4 * 16 + b1 / 16), b64Char (b1 % 16 * 4)] ++ "="
  | b0 :: b1 :: b2 :: rest =>
    String.mk [b64Char (b0 / 4), b64Char (b0 % 4 * 16 + b1 / 16),
      b64Char (b1 % 16 * 4 + b2 / 64), b64Char (b2 % 64)]
      ++ base64EncodeBytes rest

/-- `Buffer.from(s)` for the ASCII output of `stringifyJson`: the UTF-8 bytes
are the code points. -/
def asciiBytes (s : String) : List Nat := s.data.map Char.toNat

/-- `TasksService.generateCacheKey`: sort the top-level keys of the params
object, `JSON.stringify` the result, base64 it, and append to the prefix. -/
def generateCacheKey (pfx : String) (params : List (String × Json)) : String :=
  pfx ++ ":" ++ base64EncodeBytes (asciiBytes (stringifyTop (jsSortTopLevel params)))

/-- Key-wise insertion into a key-sorted association list. -/
def insertByKey {α : Type} (x : String × α) : List (String × α) → List (String × α)
  | [] => [x]
  | y :: ys => if strLe x.1 y.1 then x :: y :: ys else y :: insertByKey x ys

/-- Key-wise insertion sort of an association list. -/
def sortByKey {α : Type} : List (String × α) → List (String × α)
  | [] => []
  | m :: ms => insertByKey m (sortByKey ms)

/-- Modelled from the claim's words: a query-shape value with nested-object
key order forgotten (members sorted by key). -/
def sortJsonValue : Json → Json
  | .atom a => .atom a
  | .obj ms => .obj (sortByKey ms)

/-- Modelled from the claim's words: the whole params object as a finite map,
nested objects as maps as well — key order forgotten at both levels. -/
def sortParamsDeep (ms : List (String × Json)) : List (String × Json) :=
  sortByKey (ms.map (fun m => (m.1, sortJsonValue m.2)))

/-- The `findAll` query shape with the nested filter object in one insertion
order. -/
def paramsA : List (String × Json) :=
  [("pagination", .obj [("page", .i 1), ("limit", .i 10)]),
   ("filters", .obj [("status", .s "PENDING"), ("priority", .s "HIGH")]),
   ("userId", .atom (.s "u1")),
   ("includeUser", .atom (.b false))]

/-- The same query shape as a finite map, with the nested filter members in
the opposite insertion order. -/
def paramsB : List (String × Json) :=
  [("pagination", .obj [("page", .i 1), ("limit", .i 10)]),
   ("filters", .obj [("priority", .s "HIGH"), ("status", .s "PENDING")]),
   ("userId", .atom (.s "u1")),
   ("includeUser", .atom (.b false))]

/-- C6 counterexample: `paramsA` and `paramsB` are equal as finite maps at
every nesting level (their deep-sorted forms coincide), yet
`generateCacheKey` — which sorts only the top-level keys and serialises
nested filter objects in insertion order — produces different keys, so equal
filter maps in different key order do cause distinct cache keys. -/
theorem C6_nested_key_order_changes_key :
    sortParamsDeep paramsA = sortParamsDeep paramsB
    ∧ generateCacheKey "tasks:list" paramsA ≠ generateCacheKey "tasks:list" paramsB := by
  constructor
  · rfl
  · decide

theorem natListLe_total : ∀ xs ys : List Nat, natListLe xs ys = true ∨ natListLe ys xs = true := by
  intro xs
  induction xs with
  | nil => intro ys; left; rfl
  | cons x xs ih =>
    intro ys
    cases ys with
    | nil => right; rfl
    | cons y ys =>
      by_cases hxy : x < y
      · left
        simp [natListLe, hxy]
      · by_cases hyx : y < x
        · right
          simp [natListLe, hyx]
        · rcases ih ys with h | h
          · left
            simp [natListLe, hxy, hyx, h]
          · right
            simp [natListLe, hxy, hyx, h]

theorem natListLe_antisymm : ∀ xs ys : List Nat,
    natListLe xs ys = true → natListLe ys xs = true → xs = ys := by
  intro xs
  induction xs with
  | nil =>
    intro ys h1 h2
    cases ys with
    | nil => rfl
    | cons y ys => simp [natListLe] at h2
  | cons x xs ih =>
    intro ys h1 h2
    cases ys with
    | nil => simp [natListLe] at h1
    | cons y ys =>
      by_cases hxy : x < y
      · simp [natListLe, hxy, Nat.not_lt_of_lt hxy] at h2
      · by_cases hyx : y < x
        · simp [natListLe, hxy, hyx] at h1
        · have hx : x = y := by omega
          subst hx
          simp only [natListLe, hxy, if_false, lt_irrefl] at h1 h2
          rw [ih ys h1 h2]

theorem natListLe_trans : ∀ xs ys zs : List Nat,
    natListLe xs ys = true → natListLe ys zs = true → natListLe xs zs = true := by
  intro xs
  induction xs with
  | nil => intro ys zs _ _; rfl
  | cons x xs ih =>
    intro ys zs h1 h2
    cases ys with
    | nil => simp [natListLe] at h1
    | cons y ys =>
      cases zs with
      | nil => simp [natListLe] at h2
      | cons z zs =>
        by_cases hxy : x < y
        · have hyz : y < z ∨ y = z := by
            by_cases h : y < z
            · exact Or.inl h
            · by_cases h' : z < y
              · simp [natListLe, h, h'] at h2
              · exact Or.inr (by omega)
          have hxz : x < z := by omega
          simp [natListLe, hxz]
        · by_cases hyx : y < x
          · simp [natListLe, hxy, hyx] at h1
          · have hx : x = y := by omega
            subst hx
            by_cases hyz : x < z
            · simp [natListLe, hyz]
            · by_cases hzy : z < x
              · simp [natListLe, hyz, hzy] at h2
              · simp only [natListLe, hxy, hyz, hzy, if_false, lt_irrefl] at h1 h2 ⊢
                exact ih ys zs h1 h2

theorem strLe_total (a b : String) : strLe a b = true ∨ strLe b a = true :=
  natListLe_total _ _

theorem strLe_antisymm (a b : String) (h1 : strLe a b = true) (h2 : strLe b a = true) :
    a = b := by
  have hmap := natListLe_antisymm _ _ h1 h2
  have hinj : Function.Injective Char.toNat := fun c1 c2 h => Char.ext (UInt32.ext h)
  exact String.ext (List.map_injective_iff.mpr hinj hmap)

theorem strLe_trans (a b c : String) (h1 : strLe a b = true) (h2 : strLe b c = true) :
    strLe a c = true :=
  natListLe_trans _ _ _ h1 h2

theorem insertSorted_perm (x : String) (l : List String) :
    List.Perm (insertSorted x l) (x :: l) := by
  induction l with
  | nil => exact List.Perm.refl _
  | cons y ys ih =>
    by_cases h : strLe x y = true
    · simp [insertSorted, h]
    · simp only [insertSorted, h, if_false, Bool.false_eq_true]
      exact (ih.cons y).trans (List.Perm.swap x y ys)

theorem sortKeys_perm (l : List String) : List.Perm (sortKeys l) l := by
  induction l with
  | nil => exact List.Perm.refl _
  | cons k ks ih => exact (insertSorted_perm k (sortKeys ks)).trans (ih.cons k)

theorem insertSorted_sorted (x : String) (l : List String)
    (hl : List.Sorted (fun a b => strLe a b = true) l) :
    List.Sorted (fun a b => strLe a b = true) (insertSorted x l) := by
  induction l with
  | nil => simp [insertSorted]
  | cons y ys ih =>
    rcases List.pairwise_cons.mp hl with ⟨hy, hys⟩
    by_cases h : strLe x y = true
    · simp only [insertSorted, h, if_true]
      apply List.pairwise_cons.mpr
      refine ⟨?_, hl⟩
      intro z hz
      rcases List.mem_cons.mp hz with rfl | hz2
      · exact h
      · exact strLe_trans x y z h (hy z hz2)
    · have hyx : strLe y x = true := by
        rcases strLe_total x y with h' | h'
        · exact absurd h' h
        · exact h'
      simp only [insertSorted, h, if_false, Bool.false_eq_true]
      apply List.pairwise_cons.mpr
      refine ⟨?_, ih hys⟩
      intro z hz
      rcases List.mem_cons.mp ((insertSorted_perm x ys).mem_iff.mp hz) with rfl | hz2
      · exact hyx
      · exact hy z hz2

theorem sortKeys_sorted (l : List String) :
    List.Sorted (fun a b => strLe a b = true) (sortKeys l) := by
  induction l with
  | nil => simp [sortKeys]
  | cons k ks ih => exact insertSorted_sorted k (sortKeys ks) ih

theorem sortKeys_eq_of_perm (l1 l2 : List String) (h : List.Perm l1 l2) :
    sortKeys l1 = sortKeys l2 := by
  haveI : IsAntisymm String (fun a b => strLe a b = true) := ⟨strLe_antisymm⟩
  exact List.eq_of_perm_of_sorted
    ((sortKeys_perm l1).trans (h.trans (sortKeys_perm l2).symm))
    (sortKeys_sorted l1) (sortKeys_sorted l2)

theorem lookupJ_isSome_iff (k : String) (l : List (String × Json)) :
    (lookupJ k l).isSome = true ↔ k ∈ l.map Prod.fst := by
  induction l with
  | nil => simp [lookupJ]
  | cons m r ih =>
    obtain ⟨k', v⟩ := m
    by_cases h : k' = k
    · simp [lookupJ, h]
    · have hne : k ≠ k' := fun he => h he.symm
      simp [lookupJ, h, ih, hne]

/-- C6 amended: `generateCacheKey` is invariant under the order of the
*top-level* keys of the query-shape object — two params objects with
duplicate-free keys that agree as maps on every key (the nested filter values
being identical, insertion order included) produce the same cache key — while
the counterexample shows the invariance does not extend to the key order
inside nested filter objects. -/
theorem C6_top_level_key_order_invariance :
    ∀ (pfx : String) (p1 p2 : List (String × Json)),
      (p1.map Prod.fst).Nodup → (p2.map Prod.fst).Nodup →
      (∀ k, lookupJ k p1 = lookupJ k p2) →
      generateCacheKey pfx p1 = generateCacheKey pfx p2 := by
  intro pfx p1 p2 h1 h2 hlook
  have hkeysperm : List.Perm (p1.map Prod.fst) (p2.map Prod.fst) := by
    rw [List.perm_ext_iff_of_nodup h1 h2]
    intro a
    rw [← lookupJ_isSome_iff a p1, ← lookupJ_isSome_iff a p2, hlook a]
  have hmain : jsSortTopLevel p1 = jsSortTopLevel p2 := by
    rw [jsSortTopLevel, jsSortTopLevel, sortKeys_eq_of_perm _ _ hkeysperm]
    exact List.map_eq_map_iff.mpr (fun k _ => by rw [hlook k])
  rw [generateCacheKey, generateCacheKey, hmain]

/-- C6 witness: two top-level orders of the same two-key object yield the same
cache key, by the amended theorem. -/
theorem C6_top_level_key_order_invariance_witness :
    generateCacheKey "tasks:list" [("b", Json.atom (.i 1)), ("a", Json.atom (.i 2))]
      = generateCacheKey "tasks:list" [("a", Json.atom (.i 2)), ("b", Json.atom (.i 1))] := by
  apply C6_top_level_key_order_invariance "tasks:list" _ _ (by decide) (by decide)
  intro k
  by_cases h1 : "b" = k
  · by_cases h2 : "a" = k
    · exact absurd (h2.trans h1.symm) (by decide)
    · simp [lookupJ, h1, h2]
  · by_cases h2 : "a" = k
    · simp [lookupJ, h1, h2]
    · simp [lookupJ, h1, h2]

end TaskFlow
